import Mathlib

/-!
Verification of the MyEssentials Ledger client data layer
(`src/client/src/App.jsx`).

The JavaScript source is shallowly embedded as follows:

* JS strings are Lean `String`s; `toLowerCase`, `trim` and `includes` are
  modelled structurally on the underlying character list (`jsToLower`,
  `jsTrim`, `jsIncludes`), matching the ASCII behaviour of the source.
* A possibly-`undefined` numeric field is an `Option`; JS comparisons
  against `undefined` are `false` (they evaluate to `NaN` comparisons),
  which `jsLt` / `jsGtZero` encode.
* `x || d` coercions (`quantity || 1`, `price || 0`, `price || Infinity`)
  are modelled by explicit zero/`none` tests, since `0`, `NaN` and
  `undefined` are the only falsy values these fields can take.
* Comparator arithmetic in the sort (`(price || Infinity) * qty`,
  subtraction of keys) can produce `Infinity`/`NaN`, so it is carried out
  in a small JS-number datatype `JsNum`.
* `Array.prototype.sort` with a comparator `c` is, per the ECMAScript
  specification (ES2019 and later), a stable sort with respect to
  `fun a b => c a b ≤ 0`, where a comparator result of `NaN` is treated
  as `+0`.  It is embedded as `List.insertionSort` of that relation,
  which is sorted and stable in exactly that sense.
* Each event handler becomes a pure state transformer on `AppState`
  (items, stores, receipts); ambient effects (`crypto.randomUUID()`,
  `new Date()`, file parsing) become explicit parameters, and a file
  whose contents fail to parse is the `none` case of `Option ExportDoc`.
-/

/-- One `{storeName, price}` entry of an item's `stores` array.
`price = none` models a missing/undefined price field. -/
structure StoreEntry where
  storeName : String
  price : Option ℚ
deriving DecidableEq

/-- An item record, as created and persisted by the app. -/
structure Item where
  id : String
  name : String
  category : String
  status : String
  quantity : ℤ
  barcode : String
  imageUrl : String
  stores : List StoreEntry
deriving DecidableEq

/-- A reusable store record `{id, name}`. -/
structure StoreRec where
  id : String
  name : String
deriving DecidableEq

/-- One snapshot entry of a receipt's `items` array. -/
structure ReceiptItem where
  id : String
  name : String
  quantity : ℤ
  cheapestPrice : Option ℚ
  cheapestStore : String
  status : String
deriving DecidableEq

/-- A logged receipt. -/
structure Receipt where
  id : String
  timestamp : String
  filterUsed : String
  estimatedTotal : ℚ
  itemCount : ℕ
  items : List ReceiptItem
deriving DecidableEq

/-- The three collections; the source keeps them identical in IndexedDB and
in React state (every mutation writes through before updating memory), so a
single state models both. -/
structure AppState where
  items : List Item
  stores : List StoreRec
  receipts : List Receipt
deriving DecidableEq

def MAX_STORES_PER_ITEM : ℕ := 10

def MAX_REUSABLE_STORES : ℕ := 50

def STATUS_CYCLE : List String := ["Depleted", "Running Low", "Home Stocked"]

/-! ### Rational arithmetic helpers

The standard `Rat.mul` / `Rat.add` / `Rat.sub` are `@[irreducible]`, so the
kernel cannot evaluate them on the concrete inputs of this development.
The comparator and aggregate arithmetic below therefore uses the following
equivalent formulations through `Rat.divInt`, which does reduce; the
`_eq` lemmas identify them with the standard operations for proofs. -/

/-- `q * k` for an integer `k`, in a kernel-reducible form. -/
def ratMulInt (q : ℚ) (k : ℤ) : ℚ := Rat.divInt (q.num * k) (q.den : ℤ)

/-- `a - b`, in a kernel-reducible form. -/
def ratSub (a b : ℚ) : ℚ :=
  Rat.divInt (a.num * (b.den : ℤ) - b.num * (a.den : ℤ)) ((a.den : ℤ) * (b.den : ℤ))

/-- `a + b`, in a kernel-reducible form. -/
def ratAdd (a b : ℚ) : ℚ :=
  Rat.divInt (a.num * (b.den : ℤ) + b.num * (a.den : ℤ)) ((a.den : ℤ) * (b.den : ℤ))

/-- `(n : ℚ)`, in a kernel-reducible form. -/
def intToRat (n : ℤ) : ℚ := Rat.divInt n 1

theorem ratMulInt_eq (q : ℚ) (k : ℤ) : ratMulInt q k = q * (k : ℚ) := by
  have hq : ((q.den : ℚ)) ≠ 0 := Nat.cast_ne_zero.mpr q.den_nz
  rw [ratMulInt, Rat.divInt_eq_div]
  conv_rhs => rw [← Rat.num_div_den q]
  push_cast
  field_simp

theorem ratSub_eq (a b : ℚ) : ratSub a b = a - b := by
  have ha : ((a.den : ℚ)) ≠ 0 := Nat.cast_ne_zero.mpr a.den_nz
  have hb : ((b.den : ℚ)) ≠ 0 := Nat.cast_ne_zero.mpr b.den_nz
  rw [ratSub, Rat.divInt_eq_div]
  conv_rhs => rw [← Rat.num_div_den a, ← Rat.num_div_den b]
  push_cast
  field_simp
  ring

theorem ratAdd_eq (a b : ℚ) : ratAdd a b = a + b := by
  have ha : ((a.den : ℚ)) ≠ 0 := Nat.cast_ne_zero.mpr a.den_nz
  have hb : ((b.den : ℚ)) ≠ 0 := Nat.cast_ne_zero.mpr b.den_nz
  rw [ratAdd, Rat.divInt_eq_div]
  conv_rhs => rw [← Rat.num_div_den a, ← Rat.num_div_den b]
  push_cast
  field_simp

theorem intToRat_eq (n : ℤ) : intToRat n = (n : ℚ) := by
  rw [intToRat, Rat.divInt_eq_div]
  simp

/-! ### JS-value helpers -/

/-- JS `p > 0` where `p` may be `undefined` (comparison with `undefined` is
`false`). -/
def jsGtZero : Option ℚ → Bool
  | some p => decide (0 < p)
  | none => false

/-- JS `a < b` on possibly-`undefined` numbers. -/
def jsLt : Option ℚ → Option ℚ → Bool
  | some a, some b => decide (a < b)
  | _, _ => false

/-- JS `q || 1` for an integer-valued quantity field (`0` is falsy). -/
def jsOrOne (q : ℤ) : ℤ := if q = 0 then 1 else q

/-- JS `q || 1` where the quantity field may be absent. -/
def jsOrOneOpt : Option ℤ → ℤ
  | none => 1
  | some q => jsOrOne q

/-- JS `String.prototype.toLowerCase` (ASCII). -/
def jsToLower (s : String) : String := ⟨s.data.map Char.toLower⟩

/-- JS `String.prototype.trim`. -/
def jsTrim (s : String) : String :=
  ⟨((s.data.dropWhile Char.isWhitespace).reverse.dropWhile Char.isWhitespace).reverse⟩

/-- Does `pre` occur at the head of `l`? (helper for `jsIncludes`). -/
def headMatch : List Char → List Char → Bool
  | [], _ => true
  | _ :: _, [] => false
  | c :: cs, d :: ds => c == d && headMatch cs ds

/-- Substring occurrence on character lists (helper for `jsIncludes`). -/
def inclChars : List Char → List Char → Bool
  | [], sub => sub.isEmpty
  | c :: t, sub => headMatch sub (c :: t) || inclChars t sub

/-- JS `hay.includes(sub)`. -/
def jsIncludes (hay sub : String) : Bool := inclChars hay.data sub.data

/-- Lexicographic code-unit comparison on character lists (helper for
`jsStrLt`). -/
def charListLt : List Char → List Char → Bool
  | [], [] => false
  | [], _ :: _ => true
  | _ :: _, [] => false
  | c :: cs, d :: ds => decide (c < d) || (c == d && charListLt cs ds)

/-- JS `a < b` on strings: lexicographic comparison of code units. -/
def jsStrLt (a b : String) : Bool := charListLt a.data b.data

/-- JS `Array.prototype.indexOf` (`-1` when the element is absent). -/
def jsIndexOf : List String → String → ℤ
  | [], _ => -1
  | a :: l, x =>
    if a = x then 0
    else
      let r := jsIndexOf l x
      if r = -1 then -1 else r + 1

/-! ### Pricing resolver (`getCheapestOption`) -/

/-- The result shape `{price, storeName}` of `getCheapestOption`. -/
structure CheapestOption where
  price : Option ℚ
  storeName : String
deriving DecidableEq

/-- One step of the `reduce` inside `getCheapestOption`:
`(min, current) => current.price < min.price ? current : min`. -/
def minStep (min cur : StoreEntry) : StoreEntry :=
  if jsLt cur.price min.price then cur else min

/-- `getCheapestOption` from the source: keep entries with `price > 0`;
none left means `{price: null, storeName: 'N/A'}`; otherwise reduce with
initial element `validPrices[0]` over the whole filtered array. -/
def getCheapestOption (item : Item) : CheapestOption :=
  match item.stores.filter (fun s => jsGtZero s.price) with
  | [] => ⟨none, "N/A"⟩
  | v :: vs =>
    let cheapest := (v :: vs).foldl minStep v
    ⟨cheapest.price, cheapest.storeName⟩

/-! ### Filter pipeline -/

/-- Stage 1 of `filteredAndSortedItems`: the search filter. -/
def searchFiltered (searchTerm : String) (items : List Item) : List Item :=
  let t := jsTrim (jsToLower searchTerm)
  if t.data.isEmpty then items
  else items.filter (fun item => jsIncludes (jsToLower item.name) t)

/-- Stage 2 of `filteredAndSortedItems`: the status filter. -/
def statusFiltered (filterStatus : String) (items : List Item) : List Item :=
  if filterStatus = "Depleted" then
    items.filter (fun item => item.status = "Depleted")
  else if filterStatus = "Running Low" then
    items.filter (fun item => item.status = "Running Low")
  else if filterStatus = "Shopping Cart" then
    items.filter (fun item => item.status = "Depleted" ∨ item.status = "Running Low")
  else items

/-! ### Sort comparator -/

/-- A JS number as it appears in the sort comparator: finite, `±Infinity`
or `NaN`. -/
inductive JsNum where
  | num (q : ℚ)
  | posInf
  | negInf
  | nan
deriving DecidableEq

/-- JS subtraction on `JsNum`. -/
def jsSub : JsNum → JsNum → JsNum
  | .nan, _ => .nan
  | _, .nan => .nan
  | .num a, .num b => .num (ratSub a b)
  | .num _, .posInf => .negInf
  | .num _, .negInf => .posInf
  | .posInf, .num _ => .posInf
  | .posInf, .posInf => .nan
  | .posInf, .negInf => .posInf
  | .negInf, .num _ => .negInf
  | .negInf, .posInf => .negInf
  | .negInf, .negInf => .nan

/-- JS multiplication of a comparator value by the `±1` direction. -/
def jsScale (x : JsNum) (d : ℤ) : JsNum :=
  match x with
  | .num q => .num (ratMulInt q d)
  | .posInf => if 0 < d then .posInf else if d < 0 then .negInf else .nan
  | .negInf => if 0 < d then .negInf else if d < 0 then .posInf else .nan
  | .nan => .nan

/-- JS `p || Infinity` on a possibly-`undefined` price. -/
def jsOrInfinity : Option ℚ → JsNum
  | none => .posInf
  | some p => if p = 0 then .posInf else .num p

/-- JS multiplication `x * k` of a `JsNum` by an integer. -/
def jsMulInt (x : JsNum) (k : ℤ) : JsNum :=
  match x with
  | .num q => .num (ratMulInt q k)
  | .posInf => if 0 < k then .posInf else if k < 0 then .negInf else .nan
  | .negInf => if 0 < k then .negInf else if k < 0 then .posInf else .nan
  | .nan => .nan

/-- The sort key the comparator computes for the `cheapestPrice` criterion:
`(getCheapestOption(a).price || Infinity) * (a.quantity || 1)`. -/
def cheapKeyJS (i : Item) : JsNum :=
  jsMulInt (jsOrInfinity (getCheapestOption i).price) (jsOrOne i.quantity)

/-- The `statusOrder` lookup table; `none` models the `undefined` result of
indexing with an unknown status. -/
def statusOrder : String → Option ℤ
  | "Depleted" => some 1
  | "Running Low" => some 2
  | "Home Stocked" => some 3
  | _ => none

/-- JS subtraction of two possibly-`undefined` integers (any `undefined`
operand gives `NaN`). -/
def jsSubOpt : Option ℤ → Option ℤ → JsNum
  | some x, some y => .num (intToRat (x - y))
  | _, _ => .nan

/-- The comparator body of the sort in `filteredAndSortedItems`, returning
the (possibly infinite or `NaN`) JS number it produces. -/
def itemCompare (criteria : String) (direction : ℤ) (a b : Item) : JsNum :=
  if criteria = "name" ∨ criteria = "category" then
    let aV := jsToLower (if criteria = "name" then a.name else a.category)
    let bV := jsToLower (if criteria = "name" then b.name else b.category)
    if jsStrLt aV bV then .num (intToRat ((-1) * direction))
    else if jsStrLt bV aV then .num (intToRat (1 * direction))
    else .num 0
  else if criteria = "status" then
    jsScale (jsSubOpt (statusOrder a.status) (statusOrder b.status)) direction
  else if criteria = "cheapestPrice" then
    jsScale (jsSub (cheapKeyJS a) (cheapKeyJS b)) direction
  else if criteria = "store" then
    let aV := jsToLower (getCheapestOption a).storeName
    let bV := jsToLower (getCheapestOption b).storeName
    if jsStrLt aV bV then .num (intToRat ((-1) * direction))
    else if jsStrLt bV aV then .num (intToRat (1 * direction))
    else .num 0
  else .num 0

/-- ES2023 `CompareArrayElements`: a comparator value of `NaN` is treated as
`+0`; element `a` stays no later than `b` exactly when the value is `≤ 0`. -/
def jsCompareLeB (criteria : String) (direction : ℤ) (a b : Item) : Bool :=
  match itemCompare criteria direction a b with
  | .num q => decide (q ≤ 0)
  | .negInf => true
  | .posInf => false
  | .nan => true

/-- The sort relation induced by the comparator. -/
def itemRel (criteria : String) (direction : ℤ) (a b : Item) : Prop :=
  jsCompareLeB criteria direction a b = true

instance (criteria : String) (direction : ℤ) :
    DecidableRel (itemRel criteria direction) :=
  fun a b => instDecidableEqBool _ _

/-- Stage 3 of `filteredAndSortedItems`: the stable sort
(`Array.prototype.sort` with a consistent comparator). -/
def sortedStage (criteria : String) (direction : ℤ) (l : List Item) : List Item :=
  List.insertionSort (itemRel criteria direction) l

/-- JS `sortCriteria.split('-')` on the underlying characters. -/
def splitDash (l : List Char) : List (List Char) :=
  l.foldr
    (fun c acc =>
      match acc with
      | [] => [[c]]
      | cur :: rest => if c == '-' then [] :: cur :: rest else (c :: cur) :: rest)
    [[]]

/-- `const [criteria, directionStr] = sortCriteria.split('-')` and
`direction = directionStr === 'asc' ? 1 : -1`. -/
def parseSortCriteria (sortCriteria : String) : String × ℤ :=
  let parts := (splitDash sortCriteria.data).map String.mk
  (parts.getD 0 "", if parts.getD 1 "" = "asc" then 1 else -1)

/-- The full `filteredAndSortedItems` memo: search filter, then status
filter, then the selected sort. -/
def filteredAndSortedItems (items : List Item)
    (searchTerm filterStatus sortCriteria : String) : List Item :=
  let p := parseSortCriteria sortCriteria
  sortedStage p.1 p.2 (statusFiltered filterStatus (searchFiltered searchTerm items))

/-- JS `p || 0` on a possibly-`undefined` price. -/
def jsOrZero : Option ℚ → ℚ
  | none => 0
  | some p => p

/-- The `totalEstimatedCost` memo over the visible list. -/
def totalEstimatedCost (visible : List Item) : ℚ :=
  visible.foldl
    (fun total item =>
      ratAdd total (ratMulInt (jsOrZero (getCheapestOption item).price) (jsOrOne item.quantity)))
    0

/-! ### Item CRUD handlers -/

/-- The store-entry sanitization shared by `handleCreateItem` and
`handleUpdateItem`: drop entries without a truthy `storeName` or with an
`undefined`/`null` price, and coerce the kept price with `Number` (the
identity on the numeric prices of this model). -/
def sanitizeItemStores (l : List StoreEntry) : List StoreEntry :=
  (l.filter (fun s => !s.storeName.data.isEmpty && s.price.isSome)).map
    (fun s => { s with price := s.price })

/-- `handleCreateItem`: sanitize, assign the fresh id, append. -/
def handleCreateItem (s : AppState) (newId : String) (itemData : Item) : AppState :=
  let newItem : Item :=
    { itemData with
      name := jsTrim itemData.name
      id := newId
      stores := sanitizeItemStores itemData.stores
      quantity := max 1 (jsOrOne itemData.quantity) }
  { s with items := s.items ++ [newItem] }

/-- `handleUpdateItem`: sanitize the full record, replace by id. -/
def handleUpdateItem (s : AppState) (updatedItem : Item) : AppState :=
  let itemToSave : Item :=
    { updatedItem with
      name := jsTrim updatedItem.name
      stores := sanitizeItemStores updatedItem.stores
      quantity := max 1 (jsOrOne updatedItem.quantity) }
  { s with items := s.items.map (fun item => if item.id = itemToSave.id then itemToSave else item) }

/-- `handleUpdateQuantity`: `Math.max(1, item.quantity + delta)` on the
targeted item. -/
def handleUpdateQuantity (s : AppState) (itemId : String) (delta : ℤ) : AppState :=
  { s with
    items := s.items.map (fun item =>
      if item.id = itemId then { item with quantity := max 1 (item.quantity + delta) }
      else item) }

/-- `handleDeleteItem`. -/
def handleDeleteItem (s : AppState) (itemId : String) : AppState :=
  { s with items := s.items.filter (fun item => item.id ≠ itemId) }

/-- The status-advance computed inside `handleCycleStatus`:
`STATUS_CYCLE[(STATUS_CYCLE.indexOf(status) + 1) % STATUS_CYCLE.length]`. -/
def nextStatus (st : String) : String :=
  let currentIndex := jsIndexOf STATUS_CYCLE st
  let nextIndex := (currentIndex + 1) % (STATUS_CYCLE.length : ℤ)
  STATUS_CYCLE.getD nextIndex.toNat ""

/-- `handleCycleStatus`. -/
def handleCycleStatus (s : AppState) (itemId : String) : AppState :=
  { s with
    items := s.items.map (fun item =>
      if item.id = itemId then { item with status := nextStatus item.status }
      else item) }

/-! ### Receipt logging -/

/-- `handleLogReceipt`: a warning-only no-op when no items are visible,
otherwise snapshot the visible list and prepend the new receipt. -/
def handleLogReceipt (s : AppState) (searchTerm filterStatus sortCriteria : String)
    (newId timestamp : String) : AppState :=
  let visible := filteredAndSortedItems s.items searchTerm filterStatus sortCriteria
  if visible.length = 0 then s
  else
    let receipt : Receipt :=
      { id := newId
        timestamp := timestamp
        filterUsed :=
          filterStatus ++ (if searchTerm.data.isEmpty then "" else " (Search: " ++ searchTerm ++ ")")
        estimatedTotal := totalEstimatedCost visible
        itemCount := visible.length
        items := visible.map (fun item =>
          let cheapest := getCheapestOption item
          { id := item.id
            name := item.name
            quantity := item.quantity
            cheapestPrice := cheapest.price
            cheapestStore := cheapest.storeName
            status := item.status }) }
    { s with receipts := receipt :: s.receipts }

/-! ### Import / export -/

/-- A raw item of an import document: the same fields as `Item`, except the
quantity may be absent (`undefined`). -/
structure DocItem where
  id : String
  name : String
  category : String
  status : String
  quantity : Option ℤ
  barcode : String
  imageUrl : String
  stores : List StoreEntry
deriving DecidableEq

/-- A parsed import/export document.  An `Option` field is `none` when the
corresponding key is missing (or not an array). -/
structure ExportDoc where
  docItems : Option (List DocItem)
  docStores : Option (List StoreRec)
  docReceipts : Option (List Receipt)
  timestamp : String
deriving DecidableEq

/-- Serialize a state item verbatim into a document item. -/
def itemToDoc (i : Item) : DocItem :=
  { id := i.id, name := i.name, category := i.category, status := i.status
    quantity := some i.quantity, barcode := i.barcode, imageUrl := i.imageUrl
    stores := i.stores }

/-- The per-item import sanitization `{...item, quantity: Math.max(1,
item.quantity || 1)}`: the quantity is clamped, all other fields are kept
verbatim. -/
def docToItem (d : DocItem) : Item :=
  { id := d.id, name := d.name, category := d.category, status := d.status
    quantity := max 1 (jsOrOneOpt d.quantity), barcode := d.barcode
    imageUrl := d.imageUrl, stores := d.stores }

/-- `hasData`: any of the three collections is nonempty. -/
def hasData (s : AppState) : Bool :=
  !s.items.isEmpty || !s.stores.isEmpty || !s.receipts.isEmpty

/-- `handleExportData`: refuse with no output when there is no data,
otherwise emit all three collections verbatim plus a timestamp. -/
def handleExportData (s : AppState) (timestamp : String) : Option ExportDoc :=
  if hasData s then
    some
      { docItems := some (s.items.map itemToDoc)
        docStores := some s.stores
        docReceipts := some s.receipts
        timestamp := timestamp }
  else none

/-- `handleImportData`.  The argument is the parse result of the selected
file (`none` for a parse failure).  Validation requires the `items` and
`stores` keys to be arrays; on success each collection is cleared and
repopulated in IndexedDB and then the in-memory state is replaced, so the
resulting state is exactly the sanitized document.  Any failure leaves the
state untouched. -/
def handleImportData (s : AppState) (parsed : Option ExportDoc) : AppState :=
  match parsed with
  | none => s
  | some doc =>
    match doc.docItems, doc.docStores with
    | some rawItems, some rawStores =>
      let sanitizedItems := rawItems.map docToItem
      let sanitizedStores := rawStores.take MAX_REUSABLE_STORES
      let sanitizedReceipts := doc.docReceipts.getD []
      ⟨sanitizedItems, sanitizedStores, sanitizedReceipts⟩
    | _, _ => s

/-! ### Lemmas about the pricing resolver -/

theorem jsLt_none_right (p : Option ℚ) : jsLt p none = false := by
  cases p <;> rfl

theorem jsLt_irrefl (p : Option ℚ) : jsLt p p = false := by
  cases p <;> simp [jsLt]

theorem jsLt_trans {a b c : Option ℚ} (h1 : jsLt a b = true) (h2 : jsLt b c = true) :
    jsLt a c = true := by
  cases a <;> cases b <;> cases c <;> simp_all [jsLt]
  exact lt_trans h1 h2

theorem minStep_self (a : StoreEntry) : minStep a a = a := by
  simp [minStep]

theorem foldl_minStep_none : ∀ (l : List StoreEntry) (a : StoreEntry), a.price = none →
    l.foldl minStep a = a
  | [], _, _ => rfl
  | c :: t, a, h => by
    have hstep : minStep a c = a := by
      simp [minStep, h, jsLt_none_right]
    rw [List.foldl_cons, hstep]
    exact foldl_minStep_none t a h

theorem foldl_minStep_mem : ∀ (l : List StoreEntry) (a : StoreEntry),
    l.foldl minStep a = a ∨ l.foldl minStep a ∈ l
  | [], _ => .inl rfl
  | c :: t, a => by
    rw [List.foldl_cons]
    rcases foldl_minStep_mem t (minStep a c) with h | h
    · rw [h]
      unfold minStep
      split
      · exact .inr (List.mem_cons_self c t)
      · exact .inl rfl
    · exact .inr (List.mem_cons_of_mem c h)

theorem foldl_minStep_le : ∀ (l : List StoreEntry) (a : StoreEntry) (p : ℚ),
    a.price = some p → ∃ q, (l.foldl minStep a).price = some q ∧ q ≤ p
  | [], _, p, h => ⟨p, h, le_refl p⟩
  | c :: t, a, p, h => by
    rw [List.foldl_cons]
    by_cases hlt : jsLt c.price a.price = true
    · cases hc : c.price with
      | none => rw [hc, h] at hlt; simp [jsLt] at hlt
      | some cv =>
        have hcv : cv < p := by
          rw [hc, h] at hlt
          simpa [jsLt] using hlt
        have hstep : minStep a c = c := by simp [minStep, hlt]
        rw [hstep]
        obtain ⟨q, hq, hle⟩ := foldl_minStep_le t c cv hc
        exact ⟨q, hq, hle.trans hcv.le⟩
    · have hstep : minStep a c = a := by simp [minStep, hlt]
      rw [hstep]
      exact foldl_minStep_le t a p h

theorem foldl_minStep_min : ∀ (l : List StoreEntry) (a x : StoreEntry),
    (x = a ∨ x ∈ l) → jsLt x.price (l.foldl minStep a).price = false
  | [], a, x, hx => by
    rcases hx with hxa | h
    · subst hxa; exact jsLt_irrefl _
    · simp at h
  | c :: t, a, x, hx => by
    rw [List.foldl_cons]
    by_cases hlt : jsLt c.price a.price = true
    · have hstep : minStep a c = c := by simp [minStep, hlt]
      rw [hstep]
      rcases hx with hxa | hx
      · -- the displaced accumulator lies strictly above c, hence above the result
        rw [hxa]
        cases hc : c.price with
        | none => rw [hc] at hlt; cases hap : a.price <;> rw [hap] at hlt <;> simp [jsLt] at hlt
        | some cv =>
          cases hap : a.price with
          | none => rw [hc, hap] at hlt; simp [jsLt] at hlt
          | some av =>
            have hcav : cv < av := by
              rw [hc, hap] at hlt
              simpa [jsLt] using hlt
            obtain ⟨q, hq, hle⟩ := foldl_minStep_le t c cv hc
            rw [hq]
            simp only [jsLt, decide_eq_false_iff_not, not_lt]
            exact (hle.trans_lt hcav).le
      · rcases List.mem_cons.mp hx with hxc | hxt
        · rw [hxc]; exact foldl_minStep_min t c c (.inl rfl)
        · exact foldl_minStep_min t c x (.inr hxt)
    · have hstep : minStep a c = a := by simp [minStep, hlt]
      rw [hstep]
      rcases hx with hxa | hx
      · rw [hxa]; exact foldl_minStep_min t a a (.inl rfl)
      · rcases List.mem_cons.mp hx with hxc | hxt
        · -- the dropped element c is at or above the old accumulator
          rw [hxc]
          cases hc : c.price with
          | none => cases (t.foldl minStep a).price <;> simp [jsLt]
          | some cv =>
            cases hap : a.price with
            | none =>
              rw [foldl_minStep_none t a hap, hap]
              exact jsLt_none_right _
            | some av =>
              have hav : av ≤ cv := by
                rw [hc, hap] at hlt
                simpa [jsLt, not_lt] using hlt
              obtain ⟨q, hq, hle⟩ := foldl_minStep_le t a av hap
              rw [hq]
              simp only [jsLt, decide_eq_false_iff_not, not_lt]
              exact hle.trans hav
        · exact foldl_minStep_min t a x (.inr hxt)

theorem jsLt_true_elim {p q : Option ℚ} (h : jsLt p q = true) :
    ∃ pv qv, p = some pv ∧ q = some qv ∧ pv < qv := by
  cases p <;> cases q <;> simp_all [jsLt]

theorem foldl_minStep_first : ∀ (l : List StoreEntry) (a : StoreEntry),
    (∀ x, x = a ∨ x ∈ l → x.price.isSome = true) →
    ∃ l1 l2, a :: l = l1 ++ (l.foldl minStep a) :: l2 ∧
      ∀ x ∈ l1, jsLt (l.foldl minStep a).price x.price = true
  | [], a, _ => ⟨[], [], rfl, by simp⟩
  | c :: t, a, hs => by
    rw [List.foldl_cons]
    by_cases hlt : jsLt c.price a.price = true
    · have hstep : minStep a c = c := by simp [minStep, hlt]
      rw [hstep]
      obtain ⟨l1, l2, heq, hgt⟩ := foldl_minStep_first t c
        (fun x hx => hs x (by
          rcases hx with hxc | hxt
          · exact .inr (by rw [hxc]; exact List.mem_cons_self c t)
          · exact .inr (List.mem_cons_of_mem c hxt)))
      cases l1 with
      | nil =>
        simp only [List.nil_append] at heq
        injection heq with h1 h2
        refine ⟨[a], l2, ?_, ?_⟩
        · rw [List.singleton_append, ← h1, ← h2]
        · intro x hx
          rw [List.mem_singleton.mp hx, ← h1]
          exact hlt
      | cons b l1t =>
        rw [List.cons_append] at heq
        injection heq with h1 h2
        refine ⟨a :: b :: l1t, l2, ?_, ?_⟩
        · rw [List.cons_append, List.cons_append, ← h2, ← h1]
        · intro x hx
          have hrb : jsLt (t.foldl minStep c).price b.price = true :=
            hgt b (List.mem_cons_self b l1t)
          rcases List.mem_cons.mp hx with hxa | hx2
          · rw [hxa]
            exact jsLt_trans hrb (h1 ▸ hlt)
          · rcases List.mem_cons.mp hx2 with hxb | hxl
            · rw [hxb]; exact hrb
            · exact hgt x (List.mem_cons_of_mem b hxl)
    · have hstep : minStep a c = a := by simp [minStep, hlt]
      rw [hstep]
      obtain ⟨l1, l2, heq, hgt⟩ := foldl_minStep_first t a
        (fun x hx => hs x (by
          rcases hx with hxa | hxt
          · exact .inl hxa
          · exact .inr (List.mem_cons_of_mem c hxt)))
      cases l1 with
      | nil =>
        simp only [List.nil_append] at heq
        injection heq with h1 h2
        refine ⟨[], c :: t, ?_, by simp⟩
        rw [List.nil_append, ← h1]
      | cons b l1t =>
        rw [List.cons_append] at heq
        injection heq with h1 h2
        have hrb : jsLt (t.foldl minStep a).price b.price = true :=
          hgt b (List.mem_cons_self b l1t)
        rw [← h1] at hrb
        refine ⟨a :: c :: l1t, l2, ?_, ?_⟩
        · rw [List.cons_append, List.cons_append, ← h2]
        · intro x hx
          rcases List.mem_cons.mp hx with hxa | hx2
          · rw [hxa]
            exact hrb
          · rcases List.mem_cons.mp hx2 with hxc | hxl
            · -- x = c: the result is strictly below a, and a is at or below c
              rw [hxc]
              obtain ⟨rv, av, hrp, hap, hrav⟩ := jsLt_true_elim hrb
              have hcs := hs c (.inr (List.mem_cons_self c t))
              cases hcp : c.price with
              | none => rw [hcp] at hcs; simp at hcs
              | some cv =>
                have hac : av ≤ cv := by
                  rw [hcp, hap] at hlt
                  simpa [jsLt, not_lt] using hlt
                rw [hrp]
                simp [jsLt]
                exact lt_of_lt_of_le hrav hac
            · exact hgt x (List.mem_cons_of_mem b hxl)

theorem foldl_cons_self (v : StoreEntry) (vs : List StoreEntry) :
    (v :: vs).foldl minStep v = vs.foldl minStep v := by
  rw [List.foldl_cons, minStep_self]

theorem getCheapestOption_pos (i : Item) (p : ℚ)
    (h : (getCheapestOption i).price = some p) : 0 < p := by
  unfold getCheapestOption at h
  cases hf : i.stores.filter (fun s => jsGtZero s.price) with
  | nil => rw [hf] at h; simp at h
  | cons v vs =>
    rw [hf] at h
    simp only [foldl_cons_self] at h
    have hmem : vs.foldl minStep v ∈ i.stores.filter (fun s => jsGtZero s.price) := by
      rw [hf]
      rcases foldl_minStep_mem vs v with he | he
      · rw [he]; exact List.mem_cons_self v vs
      · exact List.mem_cons_of_mem v he
    have hgt := List.of_mem_filter hmem
    rw [h] at hgt
    simpa [jsGtZero] using hgt

/-- The rational number 3.50 in kernel-reducible form (`7/2`). -/
def priceThreeFifty : ℚ := Rat.divInt 7 2

theorem priceThreeFifty_eq : priceThreeFifty = 3.5 := by
  norm_num [priceThreeFifty, Rat.divInt_eq_div]

/-- The item of the spec's worked example: stores
`[{A, 3.50}, {B, 2.00}, {C, 2.00}]`. -/
def tieItem : Item :=
  { id := "tie", name := "Tie", category := "Other", status := "Depleted", quantity := 1,
    barcode := "", imageUrl := "",
    stores := [⟨"A", some priceThreeFifty⟩, ⟨"B", some 2⟩, ⟨"C", some 2⟩] }

/-- C2: `getCheapestOption` considers only store entries with price strictly
greater than `0`; if none qualifies it returns `{price: null, storeName:
"N/A"}`; otherwise it returns the price and store name of an entry of the
qualifying list that no entry strictly undercuts, and every entry occurring
before it in list order is strictly more expensive (so the first occurrence
wins ties).  In particular, on stores `[{A, 3.50}, {B, 2.00}, {C, 2.00}]` it
returns `{price: 2.00, storeName: "B"}`. -/
theorem cheapestOption_spec :
    (∀ i : Item, i.stores.filter (fun s => jsGtZero s.price) = [] →
        getCheapestOption i = ⟨none, "N/A"⟩) ∧
    (∀ (i : Item) (v : StoreEntry) (vs : List StoreEntry),
        i.stores.filter (fun s => jsGtZero s.price) = v :: vs →
        ∃ e l1 l2,
          v :: vs = l1 ++ e :: l2 ∧
          getCheapestOption i = ⟨e.price, e.storeName⟩ ∧
          (∀ x ∈ v :: vs, jsLt x.price e.price = false) ∧
          (∀ x ∈ l1, jsLt e.price x.price = true)) ∧
    getCheapestOption tieItem = ⟨some 2, "B"⟩ := by
  refine ⟨?_, ?_, ?_⟩
  · intro i hf
    simp only [getCheapestOption, hf]
  · intro i v vs hf
    have hsome : ∀ x, x = v ∨ x ∈ vs → x.price.isSome = true := by
      intro x hx
      have hmem : x ∈ i.stores.filter (fun s => jsGtZero s.price) := by
        rw [hf]
        rcases hx with h | h
        · rw [h]; exact List.mem_cons_self v vs
        · exact List.mem_cons_of_mem v h
      have hgt := List.of_mem_filter hmem
      cases hxp : x.price with
      | none => rw [hxp] at hgt; simp [jsGtZero] at hgt
      | some p => simp
    obtain ⟨l1, l2, heq, hgt⟩ := foldl_minStep_first vs v hsome
    refine ⟨vs.foldl minStep v, l1, l2, heq, ?_, ?_, hgt⟩
    · simp only [getCheapestOption, hf, foldl_cons_self]
    · intro x hx
      exact foldl_minStep_min vs v x (List.mem_cons.mp hx)
  · decide

/-- An item whose store entries all fail the `price > 0` test. -/
def noPriceItem : Item :=
  { id := "np", name := "NoPrice", category := "Other", status := "Depleted", quantity := 1,
    barcode := "", imageUrl := "", stores := [⟨"A", some 0⟩, ⟨"B", none⟩] }

/-- An item with an exact tie between its two (valid) store entries. -/
def twoTieItem : Item :=
  { id := "tt", name := "TwoTie", category := "Other", status := "Depleted", quantity := 1,
    barcode := "", imageUrl := "", stores := [⟨"B", some 2⟩, ⟨"C", some 2⟩] }

theorem cheapestOption_spec_witness :
    getCheapestOption noPriceItem = ⟨none, "N/A"⟩ ∧
    (∃ e l1 l2,
      (⟨"B", some 2⟩ : StoreEntry) :: [⟨"C", some 2⟩] = l1 ++ e :: l2 ∧
      getCheapestOption twoTieItem = ⟨e.price, e.storeName⟩ ∧
      (∀ x ∈ (⟨"B", some 2⟩ : StoreEntry) :: [⟨"C", some 2⟩], jsLt x.price e.price = false) ∧
      (∀ x ∈ l1, jsLt e.price x.price = true)) :=
  ⟨cheapestOption_spec.1 noPriceItem (by decide),
   cheapestOption_spec.2.1 twoTieItem ⟨"B", some 2⟩ [⟨"C", some 2⟩] (by decide)⟩

/-! ### Status cycling -/

/-- C9: cycling advances along Depleted → Running Low → Home Stocked →
Depleted, and any status outside the cycle (index `-1`, next index `0`)
moves to Depleted; `handleCycleStatus` applies exactly this advance to the
targeted item. -/
theorem cycleStatus_spec :
    nextStatus "Depleted" = "Running Low" ∧
    nextStatus "Running Low" = "Home Stocked" ∧
    nextStatus "Home Stocked" = "Depleted" ∧
    (∀ st : String, st ∉ STATUS_CYCLE → nextStatus st = "Depleted") ∧
    (∀ (s : AppState) (itemId : String),
      handleCycleStatus s itemId =
        { s with items := s.items.map (fun i =>
            if i.id = itemId then { i with status := nextStatus i.status } else i) }) := by
  refine ⟨by decide, by decide, by decide, ?_, fun s itemId => rfl⟩
  intro st hst
  simp only [STATUS_CYCLE, List.mem_cons, List.not_mem_nil, or_false, not_or] at hst
  obtain ⟨h1, h2, h3⟩ := hst
  have e1 : ¬ ("Depleted" = st) := fun h => h1 h.symm
  have e2 : ¬ ("Running Low" = st) := fun h => h2 h.symm
  have e3 : ¬ ("Home Stocked" = st) := fun h => h3 h.symm
  simp only [nextStatus, STATUS_CYCLE, jsIndexOf, if_neg e1, if_neg e2, if_neg e3]
  decide

/-! ### Quantity updates -/

/-- C10: a quantity-delta update changes only the quantity of the targeted
item and leaves every other item untouched. -/
theorem updateQuantity_frame (s : AppState) (itemId : String) (δ : ℤ) :
    (handleUpdateQuantity s itemId δ).items.length = s.items.length ∧
    ∀ (k : ℕ) (old : Item), s.items.get? k = some old →
      ∃ new, (handleUpdateQuantity s itemId δ).items.get? k = some new ∧
        new.id = old.id ∧ new.name = old.name ∧ new.category = old.category ∧
        new.status = old.status ∧ new.barcode = old.barcode ∧
        new.imageUrl = old.imageUrl ∧ new.stores = old.stores ∧
        (old.id = itemId → new.quantity = max 1 (old.quantity + δ)) ∧
        (old.id ≠ itemId → new = old) := by
  constructor
  · simp [handleUpdateQuantity]
  · intro k old hk
    refine ⟨if old.id = itemId then { old with quantity := max 1 (old.quantity + δ) } else old,
      ?_, ?_⟩
    · rw [List.get?_eq_getElem?] at hk
      simp [handleUpdateQuantity, List.getElem?_map, hk]
    · by_cases h : old.id = itemId <;> simp [h]

/-- The write operations of the claim: create, full-record edit, quantity
delta. -/
inductive WriteOp where
  | create (newId : String) (itemData : Item)
  | edit (updatedItem : Item)
  | qdelta (itemId : String) (delta : ℤ)

def applyWrite (s : AppState) : WriteOp → AppState
  | .create newId d => handleCreateItem s newId d
  | .edit d => handleUpdateItem s d
  | .qdelta itemId δ => handleUpdateQuantity s itemId δ

def applyWrites (s : AppState) (ops : List WriteOp) : AppState :=
  ops.foldl applyWrite s

/-- Every stored quantity is at least 1. -/
def quantityInv (s : AppState) : Prop := ∀ i ∈ s.items, 1 ≤ i.quantity

instance (s : AppState) : Decidable (quantityInv s) :=
  inferInstanceAs (Decidable (∀ i ∈ s.items, 1 ≤ i.quantity))

theorem applyWrite_inv (s : AppState) (op : WriteOp) (h : quantityInv s) :
    quantityInv (applyWrite s op) := by
  cases op with
  | create newId d =>
    intro i hi
    rcases List.mem_append.mp hi with hi | hi
    · exact h i hi
    · rw [List.mem_singleton.mp hi]
      exact le_max_left 1 _
  | edit d =>
    intro i hi
    simp only [applyWrite, handleUpdateItem, List.mem_map] at hi
    obtain ⟨j, hj, hij⟩ := hi
    split at hij
    · rw [← hij]
      exact le_max_left 1 _
    · rw [← hij]
      exact h j hj
  | qdelta itemId δ =>
    intro i hi
    simp only [applyWrite, handleUpdateQuantity, List.mem_map] at hi
    obtain ⟨j, hj, hij⟩ := hi
    split at hij
    · rw [← hij]
      exact le_max_left 1 _
    · rw [← hij]
      exact h j hj

/-- C4: under any sequence of create / edit / quantity-delta writes, every
stored quantity stays at least 1: each of these writes clamps the quantity
it stores with `Math.max(1, ·)`. -/
theorem quantity_floor (s : AppState) (ops : List WriteOp) (h : quantityInv s) :
    quantityInv (applyWrites s ops) := by
  induction ops generalizing s with
  | nil => exact h
  | cons op ops ih => exact ih _ (applyWrite_inv s op h)

def invWitnessState : AppState :=
  ⟨[{ id := "w1", name := "W", category := "Other", status := "Depleted", quantity := 1,
      barcode := "", imageUrl := "", stores := [] }], [], []⟩

def invWitnessOps : List WriteOp :=
  [.qdelta "w1" (-1), .qdelta "w1" (-1),
   .edit { id := "w1", name := "W", category := "Other", status := "Depleted", quantity := -7,
           barcode := "", imageUrl := "", stores := [] },
   .create "w2" { id := "x", name := "X", category := "Other", status := "Depleted",
                  quantity := 0, barcode := "", imageUrl := "", stores := [] },
   .qdelta "w2" 1, .qdelta "w2" (-1), .qdelta "w2" (-1)]

theorem quantity_floor_witness :
    quantityInv invWitnessState ∧ quantityInv (applyWrites invWitnessState invWitnessOps) :=
  ⟨by decide, quantity_floor invWitnessState invWitnessOps (by decide)⟩

/-! ### Import failure atomicity -/

/-- C6: a parse failure or a document whose `items` or `stores` key is not
an array leaves the entire state (items, stores and receipts) unchanged. -/
theorem import_failure_atomic :
    (∀ s : AppState, handleImportData s none = s) ∧
    (∀ (s : AppState) (doc : ExportDoc), doc.docItems = none ∨ doc.docStores = none →
      handleImportData s (some doc) = s) := by
  refine ⟨fun s => rfl, ?_⟩
  intro s doc h
  rcases h with h | h
  · simp [handleImportData, h]
  · cases hdi : doc.docItems <;> simp [handleImportData, h, hdi]

def priorState : AppState :=
  ⟨[{ id := "p1", name := "P", category := "Other", status := "Depleted", quantity := 2,
      barcode := "", imageUrl := "", stores := [] }],
   [⟨"s1", "Store"⟩],
   [⟨"r1", "2024-01-01", "All", 0, 1, []⟩]⟩

/-- A document with an `items` array but no `stores` array. -/
def missingStoresDoc : ExportDoc := ⟨some [], none, some [], "t"⟩

theorem import_failure_atomic_witness :
    handleImportData priorState none = priorState ∧
    (missingStoresDoc.docItems = none ∨ missingStoresDoc.docStores = none) ∧
    handleImportData priorState (some missingStoresDoc) = priorState :=
  ⟨import_failure_atomic.1 priorState, Or.inr rfl,
   import_failure_atomic.2 priorState missingStoresDoc (Or.inr rfl)⟩

/-! ### Receipt guard -/

/-- C8: when the visible filtered list is empty, `handleLogReceipt` is a
no-op: no receipt is created and the state (hence both the persisted and
the in-memory receipts) is unchanged. -/
theorem logReceipt_empty_guard (s : AppState) (term fs sc newId ts : String)
    (h : filteredAndSortedItems s.items term fs sc = []) :
    handleLogReceipt s term fs sc newId ts = s := by
  simp [handleLogReceipt, h]

theorem logReceipt_empty_guard_witness :
    filteredAndSortedItems (AppState.items ⟨[], [], [⟨"r1", "t", "All", 0, 1, []⟩]⟩)
        "" "All" "name-asc" = [] ∧
    handleLogReceipt ⟨[], [], [⟨"r1", "t", "All", 0, 1, []⟩]⟩ "" "All" "name-asc" "id" "ts"
      = ⟨[], [], [⟨"r1", "t", "All", 0, 1, []⟩]⟩ :=
  ⟨by decide,
   logReceipt_empty_guard ⟨[], [], [⟨"r1", "t", "All", 0, 1, []⟩]⟩ "" "All" "name-asc" "id" "ts"
     (by decide)⟩

theorem cycleStatus_spec_witness :
    ("Bogus" : String) ∉ STATUS_CYCLE ∧ nextStatus "Bogus" = "Depleted" :=
  ⟨by decide, cycleStatus_spec.2.2.2.1 "Bogus" (by decide)⟩

def frameWitnessState : AppState :=
  ⟨[{ id := "f1", name := "F", category := "Other", status := "Depleted", quantity := 3,
      barcode := "b", imageUrl := "u", stores := [⟨"A", some 4⟩] },
    { id := "f2", name := "G", category := "Dairy", status := "Running Low", quantity := 2,
      barcode := "", imageUrl := "", stores := [] }], [], []⟩

theorem updateQuantity_frame_witness :
    frameWitnessState.items.get? 0 =
      some { id := "f1", name := "F", category := "Other", status := "Depleted", quantity := 3,
             barcode := "b", imageUrl := "u", stores := [⟨"A", some 4⟩] } ∧
    ∃ new, (handleUpdateQuantity frameWitnessState "f1" (-1)).items.get? 0 = some new ∧
      new.id = "f1" ∧ new.name = "F" ∧ new.category = "Other" ∧
      new.status = "Depleted" ∧ new.barcode = "b" ∧
      new.imageUrl = "u" ∧ new.stores = [⟨"A", some 4⟩] ∧
      (("f1" : String) = "f1" → new.quantity = max 1 (3 + (-1))) ∧
      (("f1" : String) ≠ "f1" → new =
        { id := "f1", name := "F", category := "Other", status := "Depleted", quantity := 3,
          barcode := "b", imageUrl := "u", stores := [⟨"A", some 4⟩] }) :=
  ⟨by decide, (updateQuantity_frame frameWitnessState "f1" (-1)).2 0
    { id := "f1", name := "F", category := "Other", status := "Depleted", quantity := 3,
      barcode := "b", imageUrl := "u", stores := [⟨"A", some 4⟩] } (by decide)⟩

/-! ### Export / import round trip -/

theorem docToItem_itemToDoc (i : Item) (h : 1 ≤ i.quantity) :
    docToItem (itemToDoc i) = i := by
  have h0 : ¬ (i.quantity = 0) := by omega
  cases i with
  | mk id name category status quantity barcode imageUrl stores =>
    simp only [docToItem, itemToDoc, jsOrOneOpt, jsOrOne] at h0 ⊢
    rw [if_neg h0, max_eq_right h]

/-- C5: importing the document produced by exporting a state of
already-clamped items and at most 50 stores reproduces the items, stores
and receipts exactly, whatever state the import runs against. -/
theorem export_import_roundtrip (s sPrior : AppState) (ts : String) (d : ExportDoc)
    (hq : ∀ i ∈ s.items, 1 ≤ i.quantity)
    (hs : s.stores.length ≤ MAX_REUSABLE_STORES)
    (hexp : handleExportData s ts = some d) :
    handleImportData sPrior (some d) = s := by
  unfold handleExportData at hexp
  by_cases hd : hasData s = true
  · rw [if_pos hd] at hexp
    injection hexp with hdoc
    subst hdoc
    simp only [handleImportData, Option.getD_some, List.map_map]
    have hmap : List.map (docToItem ∘ itemToDoc) s.items = List.map id s.items :=
      List.map_congr_left (fun i hi => docToItem_itemToDoc i (hq i hi))
    rw [hmap, List.map_id, List.take_of_length_le hs]
  · rw [if_neg hd] at hexp
    simp at hexp

def rtState : AppState :=
  ⟨[{ id := "i1", name := "Eggs", category := "Dairy", status := "Depleted", quantity := 2,
      barcode := "", imageUrl := "", stores := [⟨"A", some 3⟩] }],
   [⟨"s1", "A"⟩],
   [⟨"r1", "2024-02-02", "All", 6, 1, [⟨"i1", "Eggs", 2, some 3, "A", "Depleted"⟩]⟩]⟩

def rtDoc : ExportDoc :=
  ⟨some [⟨"i1", "Eggs", "Dairy", "Depleted", some 2, "", "", [⟨"A", some 3⟩]⟩],
   some [⟨"s1", "A"⟩],
   some [⟨"r1", "2024-02-02", "All", 6, 1, [⟨"i1", "Eggs", 2, some 3, "A", "Depleted"⟩]⟩],
   "T"⟩

theorem export_import_roundtrip_witness :
    (∀ i ∈ rtState.items, 1 ≤ i.quantity) ∧
    rtState.stores.length ≤ MAX_REUSABLE_STORES ∧
    handleExportData rtState "T" = some rtDoc ∧
    handleImportData ⟨[], [], []⟩ (some rtDoc) = rtState :=
  ⟨by decide, by decide, by decide,
   export_import_roundtrip rtState ⟨[], [], []⟩ "T" rtDoc (by decide) (by decide) (by decide)⟩

/-! ### What import actually sanitizes -/

/-- A structurally valid document whose single item has an untrimmed name
and a store entry with an empty `storeName` and a defined price. -/
def importCexDoc : ExportDoc :=
  ⟨some [⟨"c1", " Milk ", "Dairy", "Depleted", some 2, "", "", [⟨"", some 5⟩]⟩],
   some [], some [], "t"⟩

/-- C1 (counterexample): import does not apply the create/edit `sanitizeItem`
normalization.  For this valid document the imported item keeps the
untrimmed name `" Milk "` (trimming would give `"Milk"`) and keeps its store
entry with an empty `storeName` and a defined price, which the claim says is
dropped. -/
theorem import_sanitize_counterexample :
    (handleImportData ⟨[], [], []⟩ (some importCexDoc)).items.map Item.name = [" Milk "] ∧
    jsTrim " Milk " = "Milk" ∧ (" Milk " : String) ≠ "Milk" ∧
    (handleImportData ⟨[], [], []⟩ (some importCexDoc)).items.map Item.stores
      = [[⟨"", some 5⟩]] ∧
    (⟨"", some 5⟩ : StoreEntry).storeName.data.isEmpty = true ∧
    (⟨"", some 5⟩ : StoreEntry).price.isSome = true := by
  decide

/-- C1 (amended): for every document that passes structural validation,
the importer clamps each item's quantity to at least 1 (a missing or zero
quantity becomes 1) and keeps every other item field verbatim — the name is
not trimmed and the stores entries are not filtered or coerced; the stores
collection is truncated to its first 50 entries; the receipts default to
`[]` when absent; and the resulting collections replace both persisted and
in-memory state wholesale. -/
theorem import_sanitize_amended (s : AppState) (doc : ExportDoc)
    (rawItems : List DocItem) (rawStores : List StoreRec)
    (hi : doc.docItems = some rawItems) (hst : doc.docStores = some rawStores) :
    (handleImportData s (some doc)).items.map Item.id = rawItems.map DocItem.id ∧
    (handleImportData s (some doc)).items.map Item.name = rawItems.map DocItem.name ∧
    (handleImportData s (some doc)).items.map Item.category = rawItems.map DocItem.category ∧
    (handleImportData s (some doc)).items.map Item.status = rawItems.map DocItem.status ∧
    (handleImportData s (some doc)).items.map Item.barcode = rawItems.map DocItem.barcode ∧
    (handleImportData s (some doc)).items.map Item.imageUrl = rawItems.map DocItem.imageUrl ∧
    (handleImportData s (some doc)).items.map Item.stores = rawItems.map DocItem.stores ∧
    (handleImportData s (some doc)).items.map Item.quantity
      = rawItems.map (fun r => max 1 (jsOrOneOpt r.quantity)) ∧
    (∀ i ∈ (handleImportData s (some doc)).items, 1 ≤ i.quantity) ∧
    (handleImportData s (some doc)).stores = rawStores.take MAX_REUSABLE_STORES ∧
    (handleImportData s (some doc)).receipts = doc.docReceipts.getD [] := by
  have hmain : handleImportData s (some doc) =
      ⟨rawItems.map docToItem, rawStores.take MAX_REUSABLE_STORES, doc.docReceipts.getD []⟩ := by
    simp only [handleImportData, hi, hst]
  rw [hmain]
  refine ⟨by rw [List.map_map]; exact List.map_congr_left (fun r _ => rfl),
    by rw [List.map_map]; exact List.map_congr_left (fun r _ => rfl),
    by rw [List.map_map]; exact List.map_congr_left (fun r _ => rfl),
    by rw [List.map_map]; exact List.map_congr_left (fun r _ => rfl),
    by rw [List.map_map]; exact List.map_congr_left (fun r _ => rfl),
    by rw [List.map_map]; exact List.map_congr_left (fun r _ => rfl),
    by rw [List.map_map]; exact List.map_congr_left (fun r _ => rfl),
    by rw [List.map_map]; exact List.map_congr_left (fun r _ => rfl),
    ?_, rfl, rfl⟩
  intro i hi2
  obtain ⟨r, _, hr⟩ := List.mem_map.mp hi2
  rw [← hr]
  exact le_max_left 1 _

theorem import_sanitize_amended_witness :
    importCexDoc.docItems =
      some [⟨"c1", " Milk ", "Dairy", "Depleted", some 2, "", "", [⟨"", some 5⟩]⟩] ∧
    importCexDoc.docStores = some [] ∧
    (handleImportData ⟨[], [], []⟩ (some importCexDoc)).items.map Item.name
      = [⟨"c1", " Milk ", "Dairy", "Depleted", some 2, "", "", [⟨"", some 5⟩]⟩].map
          DocItem.name :=
  ⟨rfl, rfl,
   (import_sanitize_amended ⟨[], [], []⟩ importCexDoc
      [⟨"c1", " Milk ", "Dairy", "Depleted", some 2, "", "", [⟨"", some 5⟩]⟩] []
      rfl rfl).2.1⟩

/-! ### Filter pipeline characterization -/

/-- The claim-side search predicate: case-insensitive substring match of
the trimmed search term against the item name; an empty trimmed term keeps
every item. -/
def searchPredClaim (term : String) (i : Item) : Bool :=
  (jsTrim (jsToLower term)).data.isEmpty
    || jsIncludes (jsToLower i.name) (jsTrim (jsToLower term))

/-- The claim-side status predicate: exact match for Depleted and Running
Low, the Depleted-or-Running-Low union for "Shopping Cart", and no
filtering otherwise ("All"). -/
def statusPredClaim (fs : String) (i : Item) : Bool :=
  if fs = "Depleted" then i.status = "Depleted"
  else if fs = "Running Low" then i.status = "Running Low"
  else if fs = "Shopping Cart" then (i.status = "Depleted" ∨ i.status = "Running Low")
  else true

/-- The two items of the spec's filter-composition example. -/
def filterExampleItems : List Item :=
  [{ id := "m", name := "Milk", category := "Dairy", status := "Depleted", quantity := 1,
     barcode := "", imageUrl := "", stores := [] },
   { id := "b", name := "Bread", category := "Pantry", status := "Home Stocked", quantity := 1,
     barcode := "", imageUrl := "", stores := [] }]

/-- C7: the visible list is the item list filtered by the search predicate
and then by the status predicate, i.e. a single filter by their
conjunction, preserving list order; on the example items, search `"mi"`
with status All yields only Milk, and status "Shopping Cart" with an empty
search yields only Milk. -/
theorem filter_pipeline_spec :
    (∀ (term fs : String) (items : List Item),
      statusFiltered fs (searchFiltered term items) =
        items.filter (fun i => searchPredClaim term i && statusPredClaim fs i)) ∧
    (filteredAndSortedItems filterExampleItems "mi" "All" "name-asc").map Item.name
      = ["Milk"] ∧
    (filteredAndSortedItems filterExampleItems "" "Shopping Cart" "name-asc").map Item.name
      = ["Milk"] := by
  refine ⟨?_, by decide, by decide⟩
  intro term fs items
  by_cases ht : (jsTrim (jsToLower term)).data.isEmpty = true
  · have hterm : searchFiltered term items = items := by
      simp only [searchFiltered]
      rw [if_pos ht]
    have hclaim : (fun i => searchPredClaim term i && statusPredClaim fs i) =
        fun i => statusPredClaim fs i := by
      funext i
      simp [searchPredClaim, ht]
    rw [hterm, hclaim]
    by_cases h1 : fs = "Depleted"
    · simp only [statusFiltered, if_pos h1]
      exact List.filter_congr (fun x _ => by simp [statusPredClaim, h1])
    by_cases h2 : fs = "Running Low"
    · simp only [statusFiltered, if_neg h1, if_pos h2]
      exact List.filter_congr (fun x _ => by simp [statusPredClaim, h1, h2])
    by_cases h3 : fs = "Shopping Cart"
    · simp only [statusFiltered, if_neg h1, if_neg h2, if_pos h3]
      exact List.filter_congr (fun x _ => by simp [statusPredClaim, h1, h2, h3])
    · simp only [statusFiltered, if_neg h1, if_neg h2, if_neg h3]
      conv_lhs => rw [← List.filter_true (l := items)]
      exact List.filter_congr (fun x _ => by simp [statusPredClaim, h1, h2, h3])
  · have hterm : searchFiltered term items =
        items.filter (fun i => jsIncludes (jsToLower i.name) (jsTrim (jsToLower term))) := by
      simp only [searchFiltered]
      rw [if_neg ht]
    rw [hterm]
    by_cases h1 : fs = "Depleted"
    · simp only [statusFiltered, if_pos h1, List.filter_filter]
      exact List.filter_congr
        (fun x _ => by simp [searchPredClaim, statusPredClaim, ht, h1, Bool.and_comm])
    by_cases h2 : fs = "Running Low"
    · simp only [statusFiltered, if_neg h1, if_pos h2, List.filter_filter]
      exact List.filter_congr
        (fun x _ => by simp [searchPredClaim, statusPredClaim, ht, h1, h2, Bool.and_comm])
    by_cases h3 : fs = "Shopping Cart"
    · simp only [statusFiltered, if_neg h1, if_neg h2, if_pos h3, List.filter_filter]
      exact List.filter_congr
        (fun x _ => by simp [searchPredClaim, statusPredClaim, ht, h1, h2, h3, Bool.and_comm])
    · simp only [statusFiltered, if_neg h1, if_neg h2, if_neg h3]
      exact List.filter_congr
        (fun x _ => by simp [searchPredClaim, statusPredClaim, ht, h1, h2, h3])

/-! ### The cheapestPrice sort -/

/-- The claim-side sort key: cheapest price times quantity, `none` when the
item has no valid price. -/
def claimKey (i : Item) : Option ℚ :=
  match (getCheapestOption i).price with
  | some p => some (p * (i.quantity : ℚ))
  | none => none

/-- Comparison of claim keys, with `none` (no valid price, i.e. `+Infinity`)
as the top element. -/
def keyLeB : Option ℚ → Option ℚ → Bool
  | some a, some b => decide (a ≤ b)
  | some _, none => true
  | none, some _ => false
  | none, none => true

theorem keyLeB_refl (k : Option ℚ) : keyLeB k k = true := by
  cases k <;> simp [keyLeB]

theorem jsOrOne_pos (q : ℤ) (h : 1 ≤ q) : jsOrOne q = q := by
  unfold jsOrOne
  rw [if_neg (by omega)]

theorem cheapKeyJS_eq (i : Item) (hq : 1 ≤ i.quantity) :
    cheapKeyJS i =
      (match claimKey i with
       | some q => JsNum.num q
       | none => JsNum.posInf) := by
  unfold cheapKeyJS claimKey jsOrInfinity
  rw [jsOrOne_pos i.quantity hq]
  cases hp : (getCheapestOption i).price with
  | none =>
    simp only [jsMulInt]
    rw [if_pos (by omega)]
  | some p =>
    have hpos := getCheapestOption_pos i p hp
    show jsMulInt (if p = 0 then JsNum.posInf else JsNum.num p) i.quantity
      = JsNum.num (p * (i.quantity : ℚ))
    rw [if_neg (ne_of_gt hpos)]
    simp only [jsMulInt, ratMulInt_eq]

theorem itemCompare_cheap (a b : Item) :
    itemCompare "cheapestPrice" 1 a b = jsScale (jsSub (cheapKeyJS a) (cheapKeyJS b)) 1 := by
  rfl

theorem jsScale_one (x : JsNum) : jsScale x 1 = x := by
  cases x <;> simp [jsScale, ratMulInt_eq]

/-- The effective comparator value as a function of the two JS sort keys. -/
def leKey (x y : JsNum) : Bool :=
  match jsSub x y with
  | .num q => decide (q ≤ 0)
  | .negInf => true
  | .posInf => false
  | .nan => true

theorem jsCompareLeB_cheap (a b : Item) :
    jsCompareLeB "cheapestPrice" 1 a b = leKey (cheapKeyJS a) (cheapKeyJS b) := by
  unfold jsCompareLeB leKey
  rw [itemCompare_cheap, jsScale_one]

theorem cheapLe_eq (a b : Item) (ha : 1 ≤ a.quantity) (hb : 1 ≤ b.quantity) :
    jsCompareLeB "cheapestPrice" 1 a b = keyLeB (claimKey a) (claimKey b) := by
  rw [jsCompareLeB_cheap, cheapKeyJS_eq a ha, cheapKeyJS_eq b hb]
  cases claimKey a <;> cases claimKey b <;>
    simp [leKey, keyLeB, jsSub, ratSub_eq, sub_nonpos]

theorem jsOrOne_ne_zero (q : ℤ) : jsOrOne q ≠ 0 := by
  unfold jsOrOne
  split <;> omega

theorem jsOrInfinity_ne_nan (p : Option ℚ) : jsOrInfinity p ≠ .nan := by
  cases p with
  | none => simp [jsOrInfinity]
  | some v =>
    simp only [jsOrInfinity]
    split <;> simp

theorem cheapKeyJS_ne_nan (i : Item) : cheapKeyJS i ≠ .nan := by
  unfold cheapKeyJS
  have hk := jsOrOne_ne_zero i.quantity
  cases hp : jsOrInfinity (getCheapestOption i).price with
  | num q => simp [jsMulInt]
  | posInf =>
    simp only [jsMulInt]
    split_ifs <;> simp_all
    omega
  | negInf =>
    simp only [jsMulInt]
    split_ifs <;> simp_all
    omega
  | nan => exact absurd hp (jsOrInfinity_ne_nan _)

theorem leKey_total (x y : JsNum) (hx : x ≠ .nan) (hy : y ≠ .nan) :
    leKey x y = true ∨ leKey y x = true := by
  cases x <;> cases y <;> simp_all [leKey, jsSub, ratSub_eq, sub_nonpos]
  exact le_total _ _

theorem leKey_trans (x y z : JsNum) (hy : y ≠ .nan)
    (h1 : leKey x y = true) (h2 : leKey y z = true) : leKey x z = true := by
  cases x <;> cases y <;> cases z <;>
    simp_all [leKey, jsSub, ratSub_eq, sub_nonpos]
  exact le_trans h1 h2

theorem cheapRel_trans (a b c : Item) (h1 : itemRel "cheapestPrice" 1 a b)
    (h2 : itemRel "cheapestPrice" 1 b c) : itemRel "cheapestPrice" 1 a c := by
  unfold itemRel at h1 h2 ⊢
  rw [jsCompareLeB_cheap] at h1 h2 ⊢
  exact leKey_trans _ _ _ (cheapKeyJS_ne_nan b) h1 h2

theorem cheapRel_total (a b : Item) :
    itemRel "cheapestPrice" 1 a b ∨ itemRel "cheapestPrice" 1 b a := by
  unfold itemRel
  rw [jsCompareLeB_cheap, jsCompareLeB_cheap]
  exact leKey_total _ _ (cheapKeyJS_ne_nan a) (cheapKeyJS_ne_nan b)

/-- C3: under the ascending `cheapestPrice` sort (a) the output is a
permutation of the input; (b) on quantity-clamped items the comparator
orders exactly by the key `cheapestOption(item).price × quantity`, with a
missing price as `+Infinity`; (c) the output is sorted by that key, so (d)
an item with no valid price never precedes one with a valid price; and
(e) the sort is stable: two items with equal keys keep their input order. -/
theorem cheapestPrice_sort_spec (l : List Item) (hq : ∀ i ∈ l, 1 ≤ i.quantity) :
    (sortedStage "cheapestPrice" 1 l).Perm l ∧
    (∀ a b, a ∈ l → b ∈ l →
      jsCompareLeB "cheapestPrice" 1 a b = keyLeB (claimKey a) (claimKey b)) ∧
    (sortedStage "cheapestPrice" 1 l).Pairwise
      (fun a b => keyLeB (claimKey a) (claimKey b) = true) ∧
    (∀ a b, List.Sublist [a, b] (sortedStage "cheapestPrice" 1 l) →
      claimKey a = none → claimKey b = none) ∧
    (∀ a b, List.Sublist [a, b] l → claimKey a = claimKey b →
      List.Sublist [a, b] (sortedStage "cheapestPrice" 1 l)) := by
  haveI : IsTrans Item (itemRel "cheapestPrice" 1) := ⟨cheapRel_trans⟩
  haveI : IsTotal Item (itemRel "cheapestPrice" 1) := ⟨cheapRel_total⟩
  simp only [sortedStage]
  have hpairs : (List.insertionSort (itemRel "cheapestPrice" 1) l).Pairwise
      (fun a b => keyLeB (claimKey a) (claimKey b) = true) := by
    have hs := List.sorted_insertionSort (itemRel "cheapestPrice" 1) l
    refine List.Pairwise.imp_of_mem ?_ hs
    intro a b ha hb hr
    have ha2 : a ∈ l := (List.mem_insertionSort _).mp ha
    have hb2 : b ∈ l := (List.mem_insertionSort _).mp hb
    rw [← cheapLe_eq a b (hq a ha2) (hq b hb2)]
    exact hr
  refine ⟨List.perm_insertionSort _ l, ?_, hpairs, ?_, ?_⟩
  · intro a b ha hb
    exact cheapLe_eq a b (hq a ha) (hq b hb)
  · intro a b hsub hka
    have hr := List.pairwise_pair.mp (List.Pairwise.sublist hsub hpairs)
    cases hkb : claimKey b with
    | none => rfl
    | some q => rw [hka, hkb] at hr; simp [keyLeB] at hr
  · intro a b hsub hk
    have ha : a ∈ l := hsub.subset (by simp)
    have hb : b ∈ l := hsub.subset (by simp)
    refine List.pair_sublist_insertionSort ?_ hsub
    unfold itemRel
    rw [cheapLe_eq a b (hq a ha) (hq b hb), hk]
    exact keyLeB_refl _

def sortWitnessItems : List Item :=
  [{ id := "s1", name := "Milk", category := "Dairy", status := "Depleted", quantity := 2,
     barcode := "", imageUrl := "", stores := [⟨"A", some 5⟩] },
   { id := "s2", name := "Bread", category := "Pantry", status := "Depleted", quantity := 1,
     barcode := "", imageUrl := "", stores := [⟨"A", some 3⟩] },
   { id := "s3", name := "Jam", category := "Pantry", status := "Depleted", quantity := 1,
     barcode := "", imageUrl := "", stores := [] },
   { id := "s4", name := "Egg", category := "Dairy", status := "Depleted", quantity := 3,
     barcode := "", imageUrl := "", stores := [⟨"B", some 1⟩] }]

theorem cheapestPrice_sort_spec_witness :
    (∀ i ∈ sortWitnessItems, 1 ≤ i.quantity) ∧
    ((sortedStage "cheapestPrice" 1 sortWitnessItems).Perm sortWitnessItems ∧
     (∀ a b, a ∈ sortWitnessItems → b ∈ sortWitnessItems →
       jsCompareLeB "cheapestPrice" 1 a b = keyLeB (claimKey a) (claimKey b)) ∧
     (sortedStage "cheapestPrice" 1 sortWitnessItems).Pairwise
       (fun a b => keyLeB (claimKey a) (claimKey b) = true) ∧
     (∀ a b, List.Sublist [a, b] (sortedStage "cheapestPrice" 1 sortWitnessItems) →
       claimKey a = none → claimKey b = none) ∧
     (∀ a b, List.Sublist [a, b] sortWitnessItems → claimKey a = claimKey b →
       List.Sublist [a, b] (sortedStage "cheapestPrice" 1 sortWitnessItems))) :=
  ⟨by decide, cheapestPrice_sort_spec sortWitnessItems (by decide)⟩
